import Mathlib

/-!
# Verification of the bank queue simulation (src/bank_queue_sim.py)

Shallow embedding of the discrete-event simulation core and statistics
aggregation.  Virtual time and all observations are modelled as exact
rationals (idealising Python floats).  The module-level random generator is
replaced by an explicit stream of unit-exponential draws `e = -ln(1-u) ≥ 0`;
`random.expovariate(1.0 / mean)` returns `e * mean`, and the division
`1.0 / mean` raises a `ZeroDivisionError` when `mean = 0` exactly as in
Python.

The program delegates the event queue, scheduler, process and resource
semantics to the external `simpy` library, which is not part of this
repository.  Those parts are modelled from the spec (sections 4.1 to 4.4):
a time-ordered event queue with (time, priority, sequence) ordering, a
cooperative scheduler that pops the earliest event, advances the clock and
runs the owning process to its next suspension point, and a server pool
that grants immediately while below capacity and otherwise queues requests
in FIFO arrival order, handing a freed slot to the head of the wait queue
on release.  The customer / arrival-generator logic and all statistics
functions are translated directly from the source file.
-/

/-- Simulated virtual time, in minutes. -/
abbrev Time := ℚ

/-- Runtime errors the Python program can raise.  There is no
invalid-configuration error anywhere in the source: `capacityError` is the
`ValueError` raised by the resource constructor for capacity below 1,
`untilError` the `ValueError` raised by `env.run` for a non-positive
stopping time, `zeroDivision` the `ZeroDivisionError` from `1.0 / mean`
with `mean = 0`, `negativeDelay` the `ValueError` raised when a timeout is
created with a negative delay.  `streamExhausted` is an artifact of the
finite random stream of the model (Python's stream is unbounded). -/
inductive SimError where
  | capacityError
  | untilError
  | zeroDivision
  | negativeDelay
  | streamExhausted
deriving DecidableEq, Repr

/-- The `statistics.StatisticsError` raised by `statistics.mean` on an
empty sequence and by `statistics.stdev` on fewer than two data points. -/
inductive AggError where
  | statisticsError
deriving DecidableEq, Repr

/-- The suspended-process resumptions this program can schedule.
`genStart` is the first resumption of the `customer_arrivals` generator,
`genWake` a later resumption of that generator (its inter-arrival timeout
fired), `custInit` the initial resumption of a freshly spawned `customer`
process (it records its arrival time and requests a teller), `reqGranted`
the resumption of a customer whose teller request succeeded (service
starts), and `svcDone` the resumption of a customer whose service timeout
fired (it releases its teller and terminates). -/
inductive PAction where
  | genStart
  | genWake
  | custInit (id : ℕ) (arrival : Time)
  | reqGranted (id : ℕ) (arrival : Time)
  | svcDone
deriving DecidableEq, Repr

/-- A pending event: wake-up time, priority (lower dispatches earlier at
equal times; 0 = urgent process-initialisation, 1 = normal), and a unique
insertion sequence number as the final tie-break.  Modelled from the spec:
events are totally ordered by (time, priority, sequence). -/
structure Ev where
  time : Time
  prio : ℕ
  seq : ℕ
  act : PAction
deriving DecidableEq, Repr

/-- The strict-weak event ordering (time, then priority, then sequence). -/
def evLE (a b : Ev) : Prop :=
  a.time < b.time ∨
    (a.time = b.time ∧ (a.prio < b.prio ∨ (a.prio = b.prio ∧ a.seq ≤ b.seq)))

instance : DecidableRel evLE := fun a b => by
  unfold evLE; exact inferInstance

instance : IsTotal Ev evLE where
  total a b := by
    unfold evLE
    rcases lt_trichotomy a.time b.time with h | h | h
    · exact Or.inl (Or.inl h)
    · rcases Nat.lt_trichotomy a.prio b.prio with h2 | h2 | h2
      · exact Or.inl (Or.inr ⟨h, Or.inl h2⟩)
      · rcases Nat.le_total a.seq b.seq with h3 | h3
        · exact Or.inl (Or.inr ⟨h, Or.inr ⟨h2, h3⟩⟩)
        · exact Or.inr (Or.inr ⟨h.symm, Or.inr ⟨h2.symm, h3⟩⟩)
      · exact Or.inr (Or.inr ⟨h.symm, Or.inl h2⟩)
    · exact Or.inr (Or.inl h)

instance : IsTrans Ev evLE where
  trans a b c hab hbc := by
    unfold evLE at *
    rcases hab with h1 | ⟨e1, h1⟩
    · rcases hbc with h2 | ⟨e2, _⟩
      · exact Or.inl (h1.trans h2)
      · exact Or.inl (e2 ▸ h1)
    · rcases hbc with h2 | ⟨e2, h2⟩
      · exact Or.inl (e1 ▸ h2)
      · refine Or.inr ⟨e1.trans e2, ?_⟩
        rcases h1 with p1 | ⟨q1, s1⟩
        · rcases h2 with p2 | ⟨q2, _⟩
          · exact Or.inl (p1.trans p2)
          · exact Or.inl (q2 ▸ p1)
        · rcases h2 with p2 | ⟨q2, s2⟩
          · exact Or.inl (q1 ▸ p2)
          · exact Or.inr ⟨q1.trans q2, s1.trans s2⟩

/-- The full state of one simulation run: the clock, the stopping time,
the event queue (kept sorted by `evLE`), the teller pool (`capacity`,
`users` in use, FIFO `waitQ` of pending requests with their arrival
times), the arrival-generator counter `nextId`, the two observation lists
of the run, bookkeeping logs of teller requests and grants in order (used
to state fairness), and the remaining random stream. -/
structure SimState where
  now : Time
  simTime : Time
  capacity : ℕ
  meanIA : ℚ
  meanSvc : ℚ
  seq : ℕ
  queue : List Ev
  users : ℕ
  waitQ : List (ℕ × Time)
  nextId : ℕ
  waiting_times : List ℚ
  service_times : List ℚ
  requestLog : List ℕ
  grantLog : List ℕ
  stream : List ℚ
deriving DecidableEq, Repr

/-- Insert a new event into the time-ordered queue, assigning the next
sequence number (spec 4.1: `schedule(time, action)`). -/
def schedule (t : Time) (p : ℕ) (a : PAction) (s : SimState) : SimState :=
  { s with queue := s.queue.orderedInsert evLE ⟨t, p, s.seq, a⟩,
           seq := s.seq + 1 }

/-- `random.expovariate(1.0 / mean)`: Python first computes `1.0 / mean`
(raising `ZeroDivisionError` for `mean = 0`), then returns
`-log(1-u) / (1/mean) = e * mean` where `e` is the next unit-exponential
draw of the stream. -/
def draw (mean : ℚ) (s : SimState) : Except SimError (ℚ × SimState) :=
  if mean = 0 then .error .zeroDivision
  else
    match s.stream with
    | [] => .error .streamExhausted
    | e :: rest => .ok (e * mean, { s with stream := rest })

/-- `env.timeout(d)`: raises `ValueError` on a negative delay, otherwise
schedules a normal-priority wake-up at `now + d`. -/
def timeout (d : ℚ) (a : PAction) (s : SimState) : Except SimError SimState :=
  if d < 0 then .error .negativeDelay
  else .ok (schedule (s.now + d) 1 a s)

/-- First resumption of `customer_arrivals`: draw the first inter-arrival
gap and sleep for it (source lines 65-67 on first entry). -/
def doGenStart (s : SimState) : Except SimError SimState :=
  match draw s.meanIA s with
  | .error e => .error e
  | .ok (g, s1) => timeout g .genWake s1

/-- Later resumption of `customer_arrivals` (source lines 66-69): bump
`customer_id`, spawn a `customer` process (an urgent initialisation event
at the current instant), then draw the next gap and sleep for it. -/
def doGenWake (s : SimState) : Except SimError SimState :=
  match draw s.meanIA
      (schedule s.now 0 (.custInit (s.nextId + 1) s.now)
        { s with nextId := s.nextId + 1 }) with
  | .error e => .error e
  | .ok (g, s3) => timeout g .genWake s3

/-- Initial resumption of a `customer` (source lines 43-48): the arrival
time is the current clock; the process requests the teller pool.  Spec
4.4: if `in_use < capacity` the request is granted at once (the grant
resumption is scheduled at the current instant), otherwise it is appended
to the FIFO wait queue. -/
def doCustInit (id : ℕ) (arr : Time) (s : SimState) : Except SimError SimState :=
  if s.users < s.capacity then
    .ok (schedule s.now 1 (.reqGranted id arr)
      { s with requestLog := s.requestLog ++ [id], users := s.users + 1,
               grantLog := s.grantLog ++ [id] })
  else
    .ok { s with requestLog := s.requestLog ++ [id],
                 waitQ := s.waitQ ++ [(id, arr)] }

/-- Resumption after the teller grant (source lines 49-57): record the
wait `now - arrival_time`, draw the service time, record it, and sleep for
the service duration. -/
def doReqGranted (arr : Time) (s : SimState) : Except SimError SimState :=
  match draw s.meanSvc
      { s with waiting_times := s.waiting_times ++ [s.now - arr] } with
  | .error e => .error e
  | .ok (svc, s2) =>
      timeout svc .svcDone { s2 with service_times := s2.service_times ++ [svc] }

/-- Resumption after the service timeout: the customer leaves and releases
its teller.  Spec 4.4: `in_use` decrements and, if the wait queue is
non-empty, its head is popped and granted (`in_use` increments back), in
strict arrival order. -/
def doSvcDone (s : SimState) : Except SimError SimState :=
  match s.waitQ with
  | [] => .ok { s with users := s.users - 1 }
  | (id, arr) :: rest =>
      .ok (schedule s.now 1 (.reqGranted id arr)
        { s with waitQ := rest, users := s.users - 1 + 1,
                 grantLog := s.grantLog ++ [id] })

/-- Dispatch one event: run the owning process from its suspension point
to the next one. -/
def dispatch (s : SimState) : PAction → Except SimError SimState
  | .genStart => doGenStart s
  | .genWake => doGenWake s
  | .custInit id arr => doCustInit id arr s
  | .reqGranted _ arr => doReqGranted arr s
  | .svcDone => doSvcDone s

/-- Result of one scheduler step. -/
inductive StepRes where
  | halted (s : SimState)
  | err (e : SimError)
  | next (s : SimState)

/-- One step of `env.run(until=sim_time)` (spec 4.2): pop the earliest
event; if its time has reached the cutoff, halt without dispatching it
(abandoning every process still suspended); otherwise advance the clock to
its timestamp and dispatch it. -/
def step (s : SimState) : StepRes :=
  match s.queue with
  | [] => .halted s
  | e :: rest =>
      if s.simTime ≤ e.time then .halted s
      else
        match dispatch { s with now := e.time, queue := rest } e.act with
        | .ok s' => .next s'
        | .error err => .err err

/-- Iterate `step` up to `n` times, staying put on halt or error (used to
speak about every reachable instant of a run). -/
def stepN : ℕ → SimState → SimState
  | 0, s => s
  | n + 1, s =>
      match step s with
      | .next s' => stepN n s'
      | _ => s

/-- Run the scheduler loop to completion (with fuel `n`, ample for the
finite random stream). -/
def runSim : ℕ → SimState → Except SimError SimState
  | 0, s => .ok s
  | n + 1, s =>
      match step s with
      | .halted s' => .ok s'
      | .err e => .error e
      | .next s' => runSim n s'

/-- The state built by `run_single_simulation` before `env.run`: a fresh
environment at time 0, a resource with `num_tellers` slots, empty
observation lists, and the single initialisation event of the
`customer_arrivals` process. -/
def initState (numTellers : ℕ) (meanIA meanSvc simTime : ℚ)
    (stream : List ℚ) : SimState :=
  { now := 0, simTime := simTime, capacity := numTellers,
    meanIA := meanIA, meanSvc := meanSvc, seq := 1,
    queue := [⟨0, 0, 0, .genStart⟩], users := 0, waitQ := [], nextId := 0,
    waiting_times := [], service_times := [], requestLog := [],
    grantLog := [], stream := stream }

/-- Every dispatched event that consumes no random draw is paid for by an
earlier one that does, so this fuel always outlasts the stream. -/
def simFuel (stream : List ℚ) : ℕ := 4 * stream.length + 4

/-- Python's `max` on a non-empty list (callers guard the empty case). -/
def listMax : List ℚ → ℚ
  | [] => 0
  | x :: xs => xs.foldl max x

/-- The per-run statistics dictionary built at source lines 89-97. -/
structure RunStats where
  run_number : ℕ
  customers_served : ℕ
  avg_waiting_time : ℚ
  max_waiting_time : ℚ
  avg_service_time : ℚ
  waiting_times : List ℚ
  service_times : List ℚ
deriving DecidableEq, Repr

/-- Source lines 89-97: `customers_served` is the length of the wait-time
list; each average (and the maximum) is 0 when its list is empty. -/
def mkRunStats (run_number : ℕ) (waits svcs : List ℚ) : RunStats :=
  { run_number := run_number,
    customers_served := waits.length,
    avg_waiting_time := if waits = [] then 0 else waits.sum / waits.length,
    max_waiting_time := if waits = [] then 0 else listMax waits,
    avg_service_time := if svcs = [] then 0 else svcs.sum / svcs.length,
    waiting_times := waits,
    service_times := svcs }

/-- `run_single_simulation` (source lines 73-102): build the environment
and resource (the resource constructor rejects capacity below 1 with a
`ValueError`), start the arrival generator, run to the cutoff (`env.run`
rejects a non-positive stopping time), and assemble the statistics.
Returns the statistics together with the unconsumed random stream. -/
def run_single_simulation (numTellers : ℕ) (meanIA meanSvc simTime : ℚ)
    (runNumber : ℕ) (stream : List ℚ) :
    Except SimError (RunStats × List ℚ) :=
  if numTellers = 0 then .error .capacityError
  else if simTime ≤ 0 then .error .untilError
  else
    match runSim (simFuel stream) (initState numTellers meanIA meanSvc simTime stream) with
    | .error e => .error e
    | .ok f => .ok (mkRunStats runNumber f.waiting_times f.service_times, f.stream)

/-- The loop of `run_multiple_simulations` (source lines 112-116), with
the module-level random stream threaded through consecutive runs. -/
def runMultiAux (numTellers : ℕ) (meanIA meanSvc simTime : ℚ) :
    ℕ → ℕ → List ℚ → Except SimError (List RunStats)
  | 0, _, _ => .ok []
  | k + 1, runNumber, stream =>
      match run_single_simulation numTellers meanIA meanSvc simTime runNumber stream with
      | .error e => .error e
      | .ok (st, rest) =>
          match runMultiAux numTellers meanIA meanSvc simTime k (runNumber + 1) rest with
          | .error e => .error e
          | .ok sts => .ok (st :: sts)

/-- `run_multiple_simulations` (source lines 106-118): run `num_runs`
simulations, numbered from 1, collecting the per-run statistics. -/
def run_multiple_simulations (numTellers : ℕ) (meanIA meanSvc simTime : ℚ)
    (numRuns : ℕ) (stream : List ℚ) : Except SimError (List RunStats) :=
  runMultiAux numTellers meanIA meanSvc simTime numRuns 1 stream

/-- `statistics.mean`: raises `StatisticsError` on an empty sequence,
otherwise the arithmetic mean. -/
def pymean (xs : List ℚ) : Except AggError ℚ :=
  if xs.isEmpty then .error .statisticsError
  else .ok (xs.sum / xs.length)

/-- The sample variance with Bessel correction used by `statistics.stdev`
(only ever applied to lists of length at least two). -/
def sampleVar (xs : List ℚ) : ℚ :=
  (xs.map fun x => (x - xs.sum / xs.length) ^ 2).sum / ((xs.length : ℚ) - 1)

/-- `statistics.stdev`: raises `StatisticsError` on fewer than two data
points, otherwise the square root of the sample variance. -/
noncomputable def pystdev (xs : List ℚ) : Except AggError ℝ :=
  if xs.length < 2 then .error .statisticsError
  else .ok (Real.sqrt (sampleVar xs))

/-- The overall statistics dictionary built at source lines 140-160. -/
structure OverallStats where
  total_runs : ℕ
  total_customers_served : ℕ
  avg_customers_per_run : ℚ
  mean_avg_waiting_time : ℚ
  std_avg_waiting_time : ℝ
  mean_max_waiting_time : ℚ
  mean_avg_service_time : ℚ
  overall_avg_waiting_time : ℚ
  overall_max_waiting_time : ℚ
  overall_avg_service_time : ℚ
  waiting_time_95ci_low : ℝ
  waiting_time_95ci_high : ℝ

/-- The runs the aggregator selects for across-run averages (source lines
128-131): those with `customers_served > 0`. -/
def qualifying (l : List RunStats) : List RunStats :=
  l.filter fun s => decide (0 < s.customers_served)

/-- The guarded idiom `statistics.mean(xs) if xs else 0`. -/
def meanEntry (xs : List ℚ) : Except AggError ℚ :=
  if xs.isEmpty then pure 0 else pymean xs

/-- The guarded idiom `statistics.stdev(xs) if len(xs) > 1 else 0`. -/
noncomputable def stdEntry (xs : List ℚ) : Except AggError ℝ :=
  if xs.length ≤ 1 then pure 0 else pystdev xs

/-- The guarded confidence-interval bound of source lines 158-159:
`mean(xs) + sign * 1.96 * stdev(xs) / sqrt(len(xs))` when `len(xs) > 1`,
else 0. -/
noncomputable def ciEntry (sign : ℝ) (xs : List ℚ) : Except AggError ℝ :=
  if xs.length ≤ 1 then pure 0
  else do
    let m ← pymean xs
    let sd ← pystdev xs
    pure ((m : ℝ) + sign * (1.96 * sd / Real.sqrt (xs.length : ℝ)))

/-- `calculate_overall_statistics` (source lines 122-162): returns `None`
for an empty run list; otherwise filters the qualifying runs, flattens the
raw observations, and builds the overall dictionary.  Every call of
`statistics.mean` / `statistics.stdev` that could raise sits behind the
guard shown in the source, so the error side of the monad is provably
unreachable. -/
noncomputable def calculate_overall_statistics (all_stats : List RunStats) :
    Except AggError (Option OverallStats) :=
  if all_stats.isEmpty then .ok none
  else
    let avg_waiting_times := (qualifying all_stats).map (·.avg_waiting_time)
    let max_waiting_times := (qualifying all_stats).map (·.max_waiting_time)
    let customers_served : List ℕ := all_stats.map (·.customers_served)
    let avg_service_times := (qualifying all_stats).map (·.avg_service_time)
    let all_waiting_times := (all_stats.map (·.waiting_times)).flatten
    let all_service_times := (all_stats.map (·.service_times)).flatten
    do
      let acpr ← pymean (customers_served.map fun (n : ℕ) => (n : ℚ))
      let mean_avg ← meanEntry avg_waiting_times
      let std_avg ← stdEntry avg_waiting_times
      let mean_max ← meanEntry max_waiting_times
      let mean_svc ← meanEntry avg_service_times
      let ov_avg ← meanEntry all_waiting_times
      let ov_svc ← meanEntry all_service_times
      let ci_low ← ciEntry (-1) avg_waiting_times
      let ci_high ← ciEntry 1 avg_waiting_times
      pure (some
        { total_runs := all_stats.length,
          total_customers_served := customers_served.sum,
          avg_customers_per_run := acpr,
          mean_avg_waiting_time := mean_avg,
          std_avg_waiting_time := std_avg,
          mean_max_waiting_time := mean_max,
          mean_avg_service_time := mean_svc,
          overall_avg_waiting_time := ov_avg,
          overall_max_waiting_time :=
            if all_waiting_times.isEmpty then 0 else listMax all_waiting_times,
          overall_avg_service_time := ov_svc,
          waiting_time_95ci_low := ci_low,
          waiting_time_95ci_high := ci_high })

/-- Total value of the guarded mean. -/
def meanVal (xs : List ℚ) : ℚ :=
  if xs.isEmpty then 0 else xs.sum / xs.length

/-- Total value of the guarded standard deviation. -/
noncomputable def stdVal (xs : List ℚ) : ℝ :=
  if xs.length ≤ 1 then 0 else Real.sqrt (sampleVar xs)

/-- Total value of the guarded confidence-interval bound. -/
noncomputable def ciVal (sign : ℝ) (xs : List ℚ) : ℝ :=
  if xs.length ≤ 1 then 0
  else ((xs.sum / xs.length : ℚ) : ℝ) +
    sign * (1.96 * Real.sqrt (sampleVar xs) / Real.sqrt (xs.length : ℝ))

/-- The record `calculate_overall_statistics` produces on a non-empty run
list, written with total functions. -/
noncomputable def overallOf (l : List RunStats) : OverallStats :=
  { total_runs := l.length,
    total_customers_served := (l.map (·.customers_served)).sum,
    avg_customers_per_run := meanVal ((l.map (·.customers_served)).map fun (n : ℕ) => (n : ℚ)),
    mean_avg_waiting_time := meanVal ((qualifying l).map (·.avg_waiting_time)),
    std_avg_waiting_time := stdVal ((qualifying l).map (·.avg_waiting_time)),
    mean_max_waiting_time := meanVal ((qualifying l).map (·.max_waiting_time)),
    mean_avg_service_time := meanVal ((qualifying l).map (·.avg_service_time)),
    overall_avg_waiting_time := meanVal ((l.map (·.waiting_times)).flatten),
    overall_max_waiting_time :=
      if ((l.map (·.waiting_times)).flatten).isEmpty then 0
      else listMax ((l.map (·.waiting_times)).flatten),
    overall_avg_service_time := meanVal ((l.map (·.service_times)).flatten),
    waiting_time_95ci_low := ciVal (-1) ((qualifying l).map (·.avg_waiting_time)),
    waiting_time_95ci_high := ciVal 1 ((qualifying l).map (·.avg_waiting_time)) }
/-! ## Infrastructure: effect of `schedule` on the state -/

@[simp] theorem schedule_now (t p a s) : (schedule t p a s).now = s.now := rfl

@[simp] theorem schedule_simTime (t p a s) :
    (schedule t p a s).simTime = s.simTime := rfl

@[simp] theorem schedule_capacity (t p a s) :
    (schedule t p a s).capacity = s.capacity := rfl

@[simp] theorem schedule_meanIA (t p a s) :
    (schedule t p a s).meanIA = s.meanIA := rfl

@[simp] theorem schedule_meanSvc (t p a s) :
    (schedule t p a s).meanSvc = s.meanSvc := rfl

@[simp] theorem schedule_users (t p a s) :
    (schedule t p a s).users = s.users := rfl

@[simp] theorem schedule_waitQ (t p a s) :
    (schedule t p a s).waitQ = s.waitQ := rfl

@[simp] theorem schedule_nextId (t p a s) :
    (schedule t p a s).nextId = s.nextId := rfl

@[simp] theorem schedule_waits (t p a s) :
    (schedule t p a s).waiting_times = s.waiting_times := rfl

@[simp] theorem schedule_svcs (t p a s) :
    (schedule t p a s).service_times = s.service_times := rfl

@[simp] theorem schedule_requestLog (t p a s) :
    (schedule t p a s).requestLog = s.requestLog := rfl

@[simp] theorem schedule_grantLog (t p a s) :
    (schedule t p a s).grantLog = s.grantLog := rfl

@[simp] theorem schedule_stream (t p a s) :
    (schedule t p a s).stream = s.stream := rfl

@[simp] theorem schedule_queue (t p a s) :
    (schedule t p a s).queue = s.queue.orderedInsert evLE ⟨t, p, s.seq, a⟩ := rfl

theorem mem_schedule_queue {e' : Ev} {t p a s} :
    e' ∈ (schedule t p a s).queue ↔ e' = ⟨t, p, s.seq, a⟩ ∨ e' ∈ s.queue := by
  simp [List.mem_orderedInsert]

theorem sorted_schedule {s : SimState} (h : s.queue.Sorted evLE) (t p a) :
    (schedule t p a s).queue.Sorted evLE := by
  rw [schedule_queue]
  exact List.Sorted.orderedInsert ⟨t, p, s.seq, a⟩ s.queue h

theorem countP_schedule (p : Ev → Bool) (t pr a s) :
    ((schedule t pr a s).queue.countP p) =
      s.queue.countP p + (if p ⟨t, pr, s.seq, a⟩ then 1 else 0) := by
  have hperm := List.perm_orderedInsert evLE (⟨t, pr, s.seq, a⟩ : Ev) s.queue
  simp only [schedule_queue, hperm.countP_eq, List.countP_cons]

/-! ## Infrastructure: inversion of the dispatch handlers -/

theorem draw_ok {m : ℚ} {s : SimState} {g s'} (h : draw m s = .ok (g, s')) :
    m ≠ 0 ∧ ∃ x rest, s.stream = x :: rest ∧ g = x * m ∧
      s' = { s with stream := rest } := by
  unfold draw at h
  split at h
  · exact absurd h (by simp)
  · refine ⟨by assumption, ?_⟩
    cases hs : s.stream with
    | nil => rw [hs] at h; exact absurd h (by simp)
    | cons x rest =>
        rw [hs] at h
        simp only [Except.ok.injEq, Prod.mk.injEq] at h
        exact ⟨x, rest, rfl, h.1.symm, h.2.symm⟩

theorem timeout_ok {d : ℚ} {a s s'} (h : timeout d a s = .ok s') :
    0 ≤ d ∧ s' = schedule (s.now + d) 1 a s := by
  unfold timeout at h
  split at h
  · exact absurd h (by simp)
  · simp only [Except.ok.injEq] at h
    exact ⟨le_of_not_lt (by assumption), h.symm⟩

theorem doGenStart_ok {s s'} (h : doGenStart s = .ok s') :
    ∃ x rest, s.meanIA ≠ 0 ∧ s.stream = x :: rest ∧ 0 ≤ x * s.meanIA ∧
      s' = schedule (s.now + x * s.meanIA) 1 .genWake { s with stream := rest } := by
  unfold doGenStart at h
  cases hd : draw s.meanIA s with
  | error e => rw [hd] at h; exact absurd h (by simp)
  | ok p =>
      obtain ⟨g, s1⟩ := p
      rw [hd] at h
      simp only [] at h
      obtain ⟨hm, x, rest, hs, hg, hs1⟩ := draw_ok hd
      obtain ⟨hge, he⟩ := timeout_ok h
      subst hs1 hg
      exact ⟨x, rest, hm, hs, hge, he⟩

theorem doGenWake_ok {s s'} (h : doGenWake s = .ok s') :
    ∃ x rest, s.meanIA ≠ 0 ∧ s.stream = x :: rest ∧ 0 ≤ x * s.meanIA ∧
      s' = schedule (s.now + x * s.meanIA) 1 .genWake
        { (schedule s.now 0 (.custInit (s.nextId + 1) s.now)
            { s with nextId := s.nextId + 1 }) with stream := rest } := by
  unfold doGenWake at h
  cases hd : draw s.meanIA
      (schedule s.now 0 (.custInit (s.nextId + 1) s.now)
        { s with nextId := s.nextId + 1 }) with
  | error e => rw [hd] at h; exact absurd h (by simp)
  | ok p =>
      obtain ⟨g, s3⟩ := p
      rw [hd] at h
      simp only [] at h
      obtain ⟨hm, x, rest, hs, hg, hs3⟩ := draw_ok hd
      obtain ⟨hge, he⟩ := timeout_ok h
      subst hs3 hg
      exact ⟨x, rest, hm, by simpa using hs, hge, by simpa using he⟩

theorem doCustInit_ok {id arr s s'} (h : doCustInit id arr s = .ok s') :
    (s.users < s.capacity ∧
      s' = schedule s.now 1 (.reqGranted id arr)
        { s with requestLog := s.requestLog ++ [id], users := s.users + 1,
                 grantLog := s.grantLog ++ [id] })
    ∨ (s.capacity ≤ s.users ∧
      s' = { s with requestLog := s.requestLog ++ [id],
                    waitQ := s.waitQ ++ [(id, arr)] }) := by
  unfold doCustInit at h
  split at h
  · simp only [Except.ok.injEq] at h
    exact Or.inl ⟨by assumption, h.symm⟩
  · simp only [Except.ok.injEq] at h
    exact Or.inr ⟨le_of_not_lt (by assumption), h.symm⟩

theorem doReqGranted_ok {arr s s'} (h : doReqGranted arr s = .ok s') :
    ∃ x rest, s.meanSvc ≠ 0 ∧ s.stream = x :: rest ∧ 0 ≤ x * s.meanSvc ∧
      s' = schedule (s.now + x * s.meanSvc) 1 .svcDone
        { s with waiting_times := s.waiting_times ++ [s.now - arr],
                 service_times := s.service_times ++ [x * s.meanSvc],
                 stream := rest } := by
  unfold doReqGranted at h
  cases hd : draw s.meanSvc { s with waiting_times := s.waiting_times ++ [s.now - arr] } with
  | error e => rw [hd] at h; exact absurd h (by simp)
  | ok p =>
      obtain ⟨g, s2⟩ := p
      rw [hd] at h
      simp only [] at h
      obtain ⟨hm, x, rest, hs, hg, hs2⟩ := draw_ok hd
      obtain ⟨hge, he⟩ := timeout_ok h
      subst hs2 hg
      exact ⟨x, rest, hm, by simpa using hs, hge, by simpa using he⟩

theorem doSvcDone_ok {s s'} (h : doSvcDone s = .ok s') :
    (s.waitQ = [] ∧ s' = { s with users := s.users - 1 })
    ∨ (∃ id arr rest, s.waitQ = (id, arr) :: rest ∧
        s' = schedule s.now 1 (.reqGranted id arr)
          { s with waitQ := rest, users := s.users - 1 + 1,
                   grantLog := s.grantLog ++ [id] }) := by
  unfold doSvcDone at h
  cases hw : s.waitQ with
  | nil =>
      rw [hw] at h
      simp only [Except.ok.injEq] at h
      exact Or.inl ⟨rfl, h.symm⟩
  | cons p rest =>
      obtain ⟨id, arr⟩ := p
      rw [hw] at h
      simp only [Except.ok.injEq] at h
      exact Or.inr ⟨id, arr, rest, rfl, h.symm⟩

theorem step_next_eq {s s' : SimState} (h : step s = .next s') :
    ∃ e rest, s.queue = e :: rest ∧ e.time < s.simTime ∧
      dispatch { s with now := e.time, queue := rest } e.act = .ok s' := by
  unfold step at h
  cases hq : s.queue with
  | nil => rw [hq] at h; exact absurd h (by simp)
  | cons e rest =>
      rw [hq] at h
      simp only [] at h
      split at h
      · exact absurd h (by simp)
      · refine ⟨e, rest, rfl, lt_of_not_le (by assumption), ?_⟩
        cases hd : dispatch { s with now := e.time, queue := rest } e.act with
        | error er => rw [hd] at h; exact absurd h (by simp)
        | ok s2 => rw [hd] at h; simp only [StepRes.next.injEq] at h; rw [h]

theorem step_halted_eq {s s' : SimState} (h : step s = .halted s') : s' = s := by
  unfold step at h
  cases hq : s.queue with
  | nil =>
      rw [hq] at h
      simp only [StepRes.halted.injEq] at h
      exact h.symm
  | cons e rest =>
      rw [hq] at h
      simp only [] at h
      split at h
      · simp only [StepRes.halted.injEq] at h
        exact h.symm
      · cases hd : dispatch { s with now := e.time, queue := rest } e.act with
        | error er => rw [hd] at h; exact absurd h (by simp)
        | ok s2 => rw [hd] at h; exact absurd h (by simp)

/-! ## Infrastructure: invariant propagation through the run -/

theorem stepN_inv (P : SimState → Prop)
    (hP : ∀ s s', P s → step s = .next s' → P s') :
    ∀ n s, P s → P (stepN n s) := by
  intro n
  induction n with
  | zero => intro s hs; exact hs
  | succ n ih =>
      intro s hs
      unfold stepN
      cases hstep : step s with
      | next s' => exact ih s' (hP s s' hs hstep)
      | halted s' => exact hs
      | err e => exact hs

theorem runSim_inv (P : SimState → Prop)
    (hP : ∀ s s', P s → step s = .next s' → P s') :
    ∀ n s t, P s → runSim n s = .ok t → P t := by
  intro n
  induction n with
  | zero =>
      intro s t hs h
      simp only [runSim, Except.ok.injEq] at h
      rwa [← h]
  | succ n ih =>
      intro s t hs h
      unfold runSim at h
      cases hstep : step s with
      | halted s' =>
          rw [hstep] at h
          simp only [Except.ok.injEq] at h
          rw [← h, step_halted_eq hstep]
          exact hs
      | err e => rw [hstep] at h; exact absurd h (by simp)
      | next s' => rw [hstep] at h; exact ih s' t (hP s s' hs hstep) h

/-! ## The resource invariant: capacity bound and FIFO fairness -/

/-- Is this a service-start (grant) resumption? -/
def PAction.isReq : PAction → Bool
  | .reqGranted _ _ => true
  | _ => false

/-- Is this a service-completion resumption? -/
def PAction.isDone : PAction → Bool
  | .svcDone => true
  | _ => false

/-- Pending grant resumptions in the event queue. -/
def cntR (q : List Ev) : ℕ := q.countP fun e => e.act.isReq

/-- Pending service-completion resumptions in the event queue. -/
def cntD (q : List Ev) : ℕ := q.countP fun e => e.act.isDone

theorem cntR_schedule (t pr a s) :
    cntR (schedule t pr a s).queue =
      cntR s.queue + (if a.isReq then 1 else 0) :=
  countP_schedule _ t pr a s

theorem cntD_schedule (t pr a s) :
    cntD (schedule t pr a s).queue =
      cntD s.queue + (if a.isDone then 1 else 0) :=
  countP_schedule _ t pr a s


theorem cntR_orderedInsert (ev : Ev) (q : List Ev) :
    cntR (q.orderedInsert evLE ev) = cntR q + (if ev.act.isReq then 1 else 0) := by
  have hperm := List.perm_orderedInsert evLE ev q
  simp [cntR, hperm.countP_eq, List.countP_cons]

theorem cntD_orderedInsert (ev : Ev) (q : List Ev) :
    cntD (q.orderedInsert evLE ev) = cntD q + (if ev.act.isDone then 1 else 0) := by
  have hperm := List.perm_orderedInsert evLE ev q
  simp [cntD, hperm.countP_eq, List.countP_cons]

theorem cntR_cons (e : Ev) (q : List Ev) :
    cntR (e :: q) = cntR q + (if e.act.isReq then 1 else 0) :=
  List.countP_cons _ _ _

theorem cntD_cons (e : Ev) (q : List Ev) :
    cntD (e :: q) = cntD q + (if e.act.isDone then 1 else 0) :=
  List.countP_cons _ _ _

/-- The inductive invariant of the server pool (spec 3 and 4.4): the
number of granted slots never exceeds the capacity; a non-empty wait queue
means the pool is saturated; the requests seen so far are exactly the
grants issued so far followed by the still-waiting requests in arrival
order; and every granted slot is held by a customer whose grant or
service-completion resumption is still pending. -/
structure InvRes (s : SimState) : Prop where
  users_le : s.users ≤ s.capacity
  satur : s.waitQ ≠ [] → s.users = s.capacity
  fifo : s.requestLog = s.grantLog ++ s.waitQ.map Prod.fst
  users_eq : s.users = cntR s.queue + cntD s.queue
theorem step_preserves_invRes {s s' : SimState}
    (hI : InvRes s) (h : step s = .next s') : InvRes s' := by
  obtain ⟨e, rest, hq, hlt, hd⟩ := step_next_eq h
  have hue : s.users =
      cntR rest + cntD rest +
        ((if e.act.isReq then 1 else 0) + (if e.act.isDone then 1 else 0)) := by
    have h0 := hI.users_eq
    rw [hq, cntR_cons, cntD_cons] at h0
    omega
  have hcap := hI.users_le
  cases ha : e.act with
  | genStart =>
      rw [ha] at hd hue
      simp only [dispatch] at hd
      simp [PAction.isReq, PAction.isDone] at hue
      obtain ⟨x, rest2, hm, hs, hge, he⟩ := doGenStart_ok hd
      subst he
      refine ⟨?_, ?_, ?_, ?_⟩
      · simpa using hI.users_le
      · simpa using hI.satur
      · simpa using hI.fifo
      · simp [cntR_orderedInsert, cntD_orderedInsert, PAction.isReq, PAction.isDone]
        omega
  | genWake =>
      rw [ha] at hd hue
      simp only [dispatch] at hd
      simp [PAction.isReq, PAction.isDone] at hue
      obtain ⟨x, rest2, hm, hs, hge, he⟩ := doGenWake_ok hd
      subst he
      refine ⟨?_, ?_, ?_, ?_⟩
      · simpa using hI.users_le
      · simpa using hI.satur
      · simpa using hI.fifo
      · simp [cntR_orderedInsert, cntD_orderedInsert, PAction.isReq, PAction.isDone]
        omega
  | custInit id arr =>
      rw [ha] at hd hue
      simp only [dispatch] at hd
      simp [PAction.isReq, PAction.isDone] at hue
      rcases doCustInit_ok hd with ⟨hc, he⟩ | ⟨hc, he⟩
      · subst he
        simp only at hc
        have hwq : s.waitQ = [] := by
          by_cases hw : s.waitQ = []
          · exact hw
          · exact absurd (hI.satur hw) (by omega)
        refine ⟨?_, ?_, ?_, ?_⟩
        · simp
          omega
        · intro hne
          simp only [schedule_waitQ] at hne
          exact absurd (hI.satur hne) (by omega)
        · have hf := hI.fifo
          rw [hwq] at hf
          simp only [List.map_nil, List.append_nil] at hf
          simp [hf, hwq]
        · simp [cntR_orderedInsert, cntD_orderedInsert, PAction.isReq, PAction.isDone]
          omega
      · subst he
        simp only at hc
        refine ⟨?_, ?_, ?_, ?_⟩
        · simpa using hI.users_le
        · intro _
          simpa using le_antisymm hI.users_le hc
        · have hf := hI.fifo
          simp [hf, List.map_append]
        · simpa using hue
  | reqGranted id arr =>
      rw [ha] at hd hue
      simp only [dispatch] at hd
      simp [PAction.isReq, PAction.isDone] at hue
      obtain ⟨x, rest2, hm, hs, hge, he⟩ := doReqGranted_ok hd
      subst he
      refine ⟨?_, ?_, ?_, ?_⟩
      · simpa using hI.users_le
      · simpa using hI.satur
      · simpa using hI.fifo
      · simp [cntR_orderedInsert, cntD_orderedInsert, PAction.isReq, PAction.isDone]
        omega
  | svcDone =>
      rw [ha] at hd hue
      simp only [dispatch] at hd
      simp [PAction.isReq, PAction.isDone] at hue
      rcases doSvcDone_ok hd with ⟨hw, he⟩ | ⟨id, arr, rest', hw, he⟩
      · subst he
        simp only at hw
        refine ⟨?_, ?_, ?_, ?_⟩
        · simp
          omega
        · intro hne
          simp [hw] at hne
        · simpa using hI.fifo
        · simp
          omega
      · subst he
        simp only at hw
        have hsat : s.users = s.capacity := hI.satur (by simp [hw])
        refine ⟨?_, ?_, ?_, ?_⟩
        · simp
          omega
        · intro _
          simp
          omega
        · have hf := hI.fifo
          rw [hw] at hf
          simp only [List.map_cons] at hf
          simp [hf]
        · simp [cntR_orderedInsert, cntD_orderedInsert, PAction.isReq, PAction.isDone]
          omega
/-! ## The clock / observation invariant -/

theorem evLE_time {a b : Ev} (h : evLE a b) : a.time ≤ b.time := by
  rcases h with h | ⟨h, _⟩
  · exact le_of_lt h
  · exact le_of_eq h

/-- Arrival times carried by pending initialisation / grant resumptions
never lie in the future of the event that delivers them. -/
def actArr (e : Ev) : Prop :=
  match e.act with
  | .custInit _ a => a ≤ e.time
  | .reqGranted _ a => a ≤ e.time
  | _ => True

/-- The inductive invariant behind clock monotonicity and non-negative
observations: the queue is sorted, only holds events at or after the
current instant, arrival times never exceed their event times, wait-queue
arrival times are in the past, and all recorded observations are
non-negative. -/
structure InvTime (s : SimState) : Prop where
  sorted : s.queue.Sorted evLE
  queue_ge : ∀ e ∈ s.queue, s.now ≤ e.time
  act_ok : ∀ e ∈ s.queue, actArr e
  wq_arr : ∀ p ∈ s.waitQ, p.2 ≤ s.now
  waits_nn : ∀ w ∈ s.waiting_times, 0 ≤ w
  svcs_nn : ∀ x ∈ s.service_times, 0 ≤ x

theorem step_preserves_invTime {s s' : SimState}
    (hI : InvTime s) (h : step s = .next s') : InvTime s' := by
  obtain ⟨e, rest, hq, hlt, hd⟩ := step_next_eq h
  have hsort : (e :: rest).Sorted evLE := by rw [← hq]; exact hI.sorted
  have hrs : rest.Sorted evLE := (List.sorted_cons.mp hsort).2
  have hhead : ∀ b ∈ rest, e.time ≤ b.time := fun b hb =>
    evLE_time ((List.sorted_cons.mp hsort).1 b hb)
  have hnow : s.now ≤ e.time := hI.queue_ge e (hq ▸ List.mem_cons_self e rest)
  have hrestq : ∀ b ∈ rest, actArr b := fun b hb =>
    hI.act_ok b (hq ▸ List.mem_cons_of_mem e hb)
  have hwq : ∀ p ∈ s.waitQ, p.2 ≤ e.time := fun p hp =>
    le_trans (hI.wq_arr p hp) hnow
  have hacte := hI.act_ok e (hq ▸ List.mem_cons_self e rest)
  cases ha : e.act with
  | genStart =>
      rw [ha] at hd
      simp only [dispatch] at hd
      obtain ⟨x, rest2, hm, hs, hge, he⟩ := doGenStart_ok hd
      replace hge : 0 ≤ x * s.meanIA := hge
      subst he
      refine ⟨?_, ?_, ?_, ?_, ?_, ?_⟩
      · exact sorted_schedule hrs _ _ _
      · intro b hb
        rcases mem_schedule_queue.mp hb with hb | hb
        · subst hb
          show e.time ≤ e.time + x * s.meanIA
          linarith
        · show e.time ≤ b.time
          exact hhead b hb
      · intro b hb
        rcases mem_schedule_queue.mp hb with hb | hb
        · subst hb; simp [actArr]
        · exact hrestq b hb
      · exact hwq
      · exact hI.waits_nn
      · exact hI.svcs_nn
  | genWake =>
      rw [ha] at hd
      simp only [dispatch] at hd
      obtain ⟨x, rest2, hm, hs, hge, he⟩ := doGenWake_ok hd
      replace hge : 0 ≤ x * s.meanIA := hge
      subst he
      refine ⟨?_, ?_, ?_, ?_, ?_, ?_⟩
      · exact sorted_schedule (sorted_schedule hrs _ _ _) _ _ _
      · intro b hb
        rcases mem_schedule_queue.mp hb with hb | hb
        · subst hb
          show e.time ≤ e.time + x * s.meanIA
          linarith
        · rcases mem_schedule_queue.mp hb with hb | hb
          · subst hb
            show e.time ≤ e.time
            exact le_refl _
          · show e.time ≤ b.time
            exact hhead b hb
      · intro b hb
        rcases mem_schedule_queue.mp hb with hb | hb
        · subst hb; simp [actArr]
        · rcases mem_schedule_queue.mp hb with hb | hb
          · subst hb; simp [actArr]
          · exact hrestq b hb
      · exact hwq
      · exact hI.waits_nn
      · exact hI.svcs_nn
  | custInit id arr =>
      rw [ha] at hd
      have harr : arr ≤ e.time := by
        unfold actArr at hacte
        rw [ha] at hacte
        exact hacte
      simp only [dispatch] at hd
      rcases doCustInit_ok hd with ⟨hc, he⟩ | ⟨hc, he⟩
      · subst he
        refine ⟨?_, ?_, ?_, ?_, ?_, ?_⟩
        · exact sorted_schedule hrs _ _ _
        · intro b hb
          rcases mem_schedule_queue.mp hb with hb | hb
          · subst hb
            show e.time ≤ e.time
            exact le_refl _
          · show e.time ≤ b.time
            exact hhead b hb
        · intro b hb
          rcases mem_schedule_queue.mp hb with hb | hb
          · subst hb; simpa [actArr] using harr
          · exact hrestq b hb
        · exact hwq
        · exact hI.waits_nn
        · exact hI.svcs_nn
      · subst he
        refine ⟨hrs, hhead, hrestq, ?_, hI.waits_nn, hI.svcs_nn⟩
        intro p hp
        replace hp : p ∈ s.waitQ ++ [(id, arr)] := hp
        rw [List.mem_append] at hp
        rcases hp with hp | hp
        · exact hwq p hp
        · rw [List.mem_singleton] at hp
          subst hp
          exact harr
  | reqGranted id arr =>
      rw [ha] at hd
      have harr : arr ≤ e.time := by
        unfold actArr at hacte
        rw [ha] at hacte
        exact hacte
      simp only [dispatch] at hd
      obtain ⟨x, rest2, hm, hs, hge, he⟩ := doReqGranted_ok hd
      replace hge : 0 ≤ x * s.meanSvc := hge
      subst he
      refine ⟨?_, ?_, ?_, ?_, ?_, ?_⟩
      · exact sorted_schedule hrs _ _ _
      · intro b hb
        rcases mem_schedule_queue.mp hb with hb | hb
        · subst hb
          show e.time ≤ e.time + x * s.meanSvc
          linarith
        · show e.time ≤ b.time
          exact hhead b hb
      · intro b hb
        rcases mem_schedule_queue.mp hb with hb | hb
        · subst hb; simp [actArr]
        · exact hrestq b hb
      · exact hwq
      · intro w hw
        replace hw : w ∈ s.waiting_times ++ [e.time - arr] := hw
        rw [List.mem_append] at hw
        rcases hw with hw | hw
        · exact hI.waits_nn w hw
        · rw [List.mem_singleton] at hw
          subst hw
          linarith
      · intro v hv
        replace hv : v ∈ s.service_times ++ [x * s.meanSvc] := hv
        rw [List.mem_append] at hv
        rcases hv with hv | hv
        · exact hI.svcs_nn v hv
        · rw [List.mem_singleton] at hv
          subst hv
          exact hge
  | svcDone =>
      rw [ha] at hd
      simp only [dispatch] at hd
      rcases doSvcDone_ok hd with ⟨hw, he⟩ | ⟨id, arr, rest', hw, he⟩
      · subst he
        exact ⟨hrs, hhead, hrestq, hwq, hI.waits_nn, hI.svcs_nn⟩
      · subst he
        replace hw : s.waitQ = (id, arr) :: rest' := hw
        have harr : arr ≤ e.time := hwq (id, arr) (by rw [hw]; exact List.mem_cons_self _ _)
        refine ⟨?_, ?_, ?_, ?_, ?_, ?_⟩
        · exact sorted_schedule hrs _ _ _
        · intro b hb
          rcases mem_schedule_queue.mp hb with hb | hb
          · subst hb
            show e.time ≤ e.time
            exact le_refl _
          · show e.time ≤ b.time
            exact hhead b hb
        · intro b hb
          rcases mem_schedule_queue.mp hb with hb | hb
          · subst hb; simpa [actArr] using harr
          · exact hrestq b hb
        · intro p hp
          replace hp : p ∈ rest' := hp
          exact hwq p (by rw [hw]; exact List.mem_cons_of_mem _ hp)
        · exact hI.waits_nn
        · exact hI.svcs_nn

/-! ## The observation-length invariant -/

/-- Observations are recorded exactly at service start: both observation
lists always have equal length, and the grants issued so far are exactly
the recorded observations plus the service-start resumptions still
pending in the event queue. -/
structure InvLen (s : SimState) : Prop where
  lw : s.waiting_times.length = s.service_times.length
  lg : s.grantLog.length = s.waiting_times.length + cntR s.queue

theorem step_preserves_invLen {s s' : SimState}
    (hI : InvLen s) (h : step s = .next s') : InvLen s' := by
  obtain ⟨e, rest, hq, hlt, hd⟩ := step_next_eq h
  have hlg : s.grantLog.length =
      s.waiting_times.length + (cntR rest + (if e.act.isReq then 1 else 0)) := by
    have h0 := hI.lg
    rw [hq, cntR_cons] at h0
    omega
  cases ha : e.act with
  | genStart =>
      rw [ha] at hd hlg
      simp only [dispatch] at hd
      obtain ⟨x, rest2, hm, hs, hge, he⟩ := doGenStart_ok hd
      subst he
      refine ⟨hI.lw, ?_⟩
      show s.grantLog.length = s.waiting_times.length +
        cntR (rest.orderedInsert evLE ⟨e.time + x * s.meanIA, 1, s.seq, .genWake⟩)
      simp [cntR_orderedInsert, PAction.isReq] at hlg ⊢
      omega
  | genWake =>
      rw [ha] at hd hlg
      simp only [dispatch] at hd
      obtain ⟨x, rest2, hm, hs, hge, he⟩ := doGenWake_ok hd
      subst he
      refine ⟨hI.lw, ?_⟩
      simp only [schedule_grantLog, schedule_waits, schedule_queue]
      simp [cntR_orderedInsert, PAction.isReq] at hlg ⊢
      omega
  | custInit id arr =>
      rw [ha] at hd hlg
      simp only [dispatch] at hd
      rcases doCustInit_ok hd with ⟨hc, he⟩ | ⟨hc, he⟩
      · subst he
        refine ⟨hI.lw, ?_⟩
        simp only [schedule_grantLog, schedule_waits, schedule_queue]
        simp [cntR_orderedInsert, PAction.isReq] at hlg ⊢
        omega
      · subst he
        refine ⟨hI.lw, ?_⟩
        simp [PAction.isReq] at hlg
        simpa using hlg
  | reqGranted id arr =>
      rw [ha] at hd hlg
      simp only [dispatch] at hd
      obtain ⟨x, rest2, hm, hs, hge, he⟩ := doReqGranted_ok hd
      subst he
      have hlw := hI.lw
      constructor
      · show (s.waiting_times ++ [e.time - arr]).length =
          (s.service_times ++ [x * s.meanSvc]).length
        simp [hlw]
      · show s.grantLog.length = (s.waiting_times ++ [e.time - arr]).length +
          cntR (rest.orderedInsert evLE ⟨e.time + x * s.meanSvc, 1, s.seq, .svcDone⟩)
        simp [cntR_orderedInsert, PAction.isReq] at hlg ⊢
        omega
  | svcDone =>
      rw [ha] at hd hlg
      simp only [dispatch] at hd
      rcases doSvcDone_ok hd with ⟨hw, he⟩ | ⟨id, arr, rest', hw, he⟩
      · subst he
        refine ⟨hI.lw, ?_⟩
        simp [PAction.isReq] at hlg
        simpa using hlg
      · subst he
        refine ⟨hI.lw, ?_⟩
        simp only [schedule_grantLog, schedule_waits, schedule_queue]
        simp [cntR_orderedInsert, PAction.isReq] at hlg ⊢
        omega

/-! ## Static configuration fields -/

theorem step_static {s s' : SimState} (h : step s = .next s') :
    s'.capacity = s.capacity ∧ s'.simTime = s.simTime ∧
      s'.meanIA = s.meanIA ∧ s'.meanSvc = s.meanSvc := by
  obtain ⟨e, rest, hq, hlt, hd⟩ := step_next_eq h
  cases ha : e.act <;> rw [ha] at hd <;> simp only [dispatch] at hd
  case genStart =>
      obtain ⟨x, rest2, _, _, _, he⟩ := doGenStart_ok hd
      subst he; exact ⟨rfl, rfl, rfl, rfl⟩
  case genWake =>
      obtain ⟨x, rest2, _, _, _, he⟩ := doGenWake_ok hd
      subst he; exact ⟨rfl, rfl, rfl, rfl⟩
  case custInit id arr =>
      rcases doCustInit_ok hd with ⟨_, he⟩ | ⟨_, he⟩ <;> subst he <;>
        exact ⟨rfl, rfl, rfl, rfl⟩
  case reqGranted id arr =>
      obtain ⟨x, rest2, _, _, _, he⟩ := doReqGranted_ok hd
      subst he; exact ⟨rfl, rfl, rfl, rfl⟩
  case svcDone =>
      rcases doSvcDone_ok hd with ⟨_, he⟩ | ⟨id, arr, rest', _, he⟩ <;> subst he <;>
        exact ⟨rfl, rfl, rfl, rfl⟩

/-! ## The invariants hold initially and at every reachable instant -/

theorem invRes_initState (nT : ℕ) (mIA mSvc sT : ℚ) (stream : List ℚ) :
    InvRes (initState nT mIA mSvc sT stream) := by
  refine ⟨Nat.zero_le _, ?_, rfl, ?_⟩
  · intro h
    exact absurd rfl h
  · simp [initState, cntR, cntD, PAction.isReq, PAction.isDone]

theorem invTime_initState (nT : ℕ) (mIA mSvc sT : ℚ) (stream : List ℚ) :
    InvTime (initState nT mIA mSvc sT stream) := by
  refine ⟨List.sorted_singleton _, ?_, ?_, ?_, ?_, ?_⟩ <;>
    simp [initState, actArr]

theorem invLen_initState (nT : ℕ) (mIA mSvc sT : ℚ) (stream : List ℚ) :
    InvLen (initState nT mIA mSvc sT stream) := by
  refine ⟨rfl, ?_⟩
  simp [initState, cntR, PAction.isReq]

theorem invRes_stepN (nT : ℕ) (mIA mSvc sT : ℚ) (stream : List ℚ) (n : ℕ) :
    InvRes (stepN n (initState nT mIA mSvc sT stream)) :=
  stepN_inv InvRes (fun _ _ hs h => step_preserves_invRes hs h) n _
    (invRes_initState nT mIA mSvc sT stream)

theorem invTime_stepN (nT : ℕ) (mIA mSvc sT : ℚ) (stream : List ℚ) (n : ℕ) :
    InvTime (stepN n (initState nT mIA mSvc sT stream)) :=
  stepN_inv InvTime (fun _ _ hs h => step_preserves_invTime hs h) n _
    (invTime_initState nT mIA mSvc sT stream)

theorem invLen_stepN (nT : ℕ) (mIA mSvc sT : ℚ) (stream : List ℚ) (n : ℕ) :
    InvLen (stepN n (initState nT mIA mSvc sT stream)) :=
  stepN_inv InvLen (fun _ _ hs h => step_preserves_invLen hs h) n _
    (invLen_initState nT mIA mSvc sT stream)

theorem capacity_stepN (nT : ℕ) (mIA mSvc sT : ℚ) (stream : List ℚ) (n : ℕ) :
    (stepN n (initState nT mIA mSvc sT stream)).capacity = nT :=
  stepN_inv (fun s => s.capacity = nT)
    (fun _ _ hs h => (step_static h).1.trans hs) n _ rfl

theorem invTime_runSim {nT : ℕ} {mIA mSvc sT : ℚ} {stream : List ℚ} {n : ℕ}
    {f : SimState}
    (h : runSim n (initState nT mIA mSvc sT stream) = .ok f) : InvTime f :=
  runSim_inv InvTime (fun _ _ hs hstep => step_preserves_invTime hs hstep) n _ f
    (invTime_initState nT mIA mSvc sT stream) h

theorem invLen_runSim {nT : ℕ} {mIA mSvc sT : ℚ} {stream : List ℚ} {n : ℕ}
    {f : SimState}
    (h : runSim n (initState nT mIA mSvc sT stream) = .ok f) : InvLen f :=
  runSim_inv InvLen (fun _ _ hs hstep => step_preserves_invLen hs hstep) n _ f
    (invLen_initState nT mIA mSvc sT stream) h

/-! ## Bridge lemmas for the aggregator -/

theorem pymean_eq {xs : List ℚ} (h : xs.isEmpty = false) :
    pymean xs = .ok (xs.sum / xs.length) := by
  simp [pymean, h]

theorem meanEntry_eq (xs : List ℚ) : meanEntry xs = .ok (meanVal xs) := by
  unfold meanEntry meanVal
  by_cases h : xs.isEmpty
  · simp [h, pure, Except.pure]
  · simp only [eq_self_iff_true, Bool.not_eq_true] at h
    simp [h, pymean_eq]

theorem stdEntry_eq (xs : List ℚ) : stdEntry xs = .ok (stdVal xs) := by
  unfold stdEntry stdVal pystdev
  by_cases h : xs.length ≤ 1
  · simp [h, pure, Except.pure]
  · have h2 : ¬ xs.length < 2 := by omega
    simp [h, h2]

theorem ciEntry_eq (sign : ℝ) (xs : List ℚ) :
    ciEntry sign xs = .ok (ciVal sign xs) := by
  unfold ciEntry ciVal pystdev
  by_cases h : xs.length ≤ 1
  · simp [h, pure, Except.pure]
  · have h2 : ¬ xs.length < 2 := by omega
    have hne : xs.isEmpty = false := by
      cases xs with
      | nil => simp at h
      | cons a t => rfl
    simp [h, h2, pymean_eq hne, bind, Except.bind, pure, Except.pure]

theorem calc_nil : calculate_overall_statistics [] = .ok none := by
  simp [calculate_overall_statistics]
theorem ebind_ok {α β : Type} (a : α) (f : α → Except AggError β) :
    (Except.ok a : Except AggError α) >>= f = f a := rfl

theorem calc_eq {l : List RunStats} (h : l.isEmpty = false) :
    calculate_overall_statistics l = .ok (some (overallOf l)) := by
  have hcs : ((l.map (·.customers_served)).map fun (n : ℕ) => (n : ℚ)).isEmpty = false := by
    cases l with
    | nil => simp at h
    | cons a t => rfl
  unfold calculate_overall_statistics
  rw [h]
  simp only [Bool.false_eq_true, if_false, pymean_eq hcs, meanEntry_eq, stdEntry_eq,
    ciEntry_eq, ebind_ok]
  refine congrArg Except.ok (congrArg some ?_)
  have hms : meanVal ((l.map (·.customers_served)).map fun (n : ℕ) => (n : ℚ)) =
      ((l.map (·.customers_served)).map fun (n : ℕ) => (n : ℚ)).sum /
        ((l.map (·.customers_served)).map fun (n : ℕ) => (n : ℚ)).length := by
    unfold meanVal
    rw [hcs]
    exact if_neg Bool.false_ne_true
  unfold overallOf
  rw [hms]

/-! ## Claim theorems -/

set_option maxHeartbeats 1000000

/-- C5: At every simulated instant of every run (every state reachable by
the scheduler from the initial state), the number of customers
concurrently holding a teller slot of the resource created with capacity
`num_tellers` is at most `num_tellers`. -/
theorem c5_capacity_invariant (numTellers : ℕ) (meanIA meanSvc simTime : ℚ)
    (stream : List ℚ) (n : ℕ) :
    (stepN n (initState numTellers meanIA meanSvc simTime stream)).users ≤
      numTellers := by
  have h1 := (invRes_stepN numTellers meanIA meanSvc simTime stream n).users_le
  have h2 := capacity_stepN numTellers meanIA meanSvc simTime stream n
  rw [h2] at h1
  exact h1

/-- C4: Pending teller requests are served in strict FIFO arrival order:
at every reachable instant the request log equals the grant log followed
by the still-waiting requests in arrival order, so the customers granted
so far are exactly the earliest requesters, in order (no priority
preemption, no bypassing of a waiting customer).  In particular, if A
requested before B and B has been granted, A was granted no later than
B. -/
theorem c4_fifo_grants (numTellers : ℕ) (meanIA meanSvc simTime : ℚ)
    (stream : List ℚ) (n : ℕ) :
    (stepN n (initState numTellers meanIA meanSvc simTime stream)).requestLog =
        (stepN n (initState numTellers meanIA meanSvc simTime stream)).grantLog ++
          ((stepN n (initState numTellers meanIA meanSvc simTime stream)).waitQ.map
            Prod.fst) ∧
    (stepN n (initState numTellers meanIA meanSvc simTime stream)).grantLog =
      (stepN n (initState numTellers meanIA meanSvc simTime stream)).requestLog.take
        (stepN n (initState numTellers meanIA meanSvc simTime stream)).grantLog.length := by
  have hf := (invRes_stepN numTellers meanIA meanSvc simTime stream n).fifo
  refine ⟨hf, ?_⟩
  rw [hf]
  exact (List.take_left _ _).symm

/-- C6: The embedding replaces the module-level random generator by an
explicit stream of draws, which is exactly what a fixed seed pins down;
the whole multi-run execution is then a pure function of the
configuration and that stream, so executing the full set of runs twice
with the same seeded stream yields identical per-customer waiting-time
and service-time sequences in every run. -/
theorem c6_deterministic_replay (numTellers : ℕ) (meanIA meanSvc simTime : ℚ)
    (numRuns : ℕ) (stream : List ℚ) :
    (run_multiple_simulations numTellers meanIA meanSvc simTime numRuns stream).map
        (fun rs => rs.map (·.waiting_times)) =
      (run_multiple_simulations numTellers meanIA meanSvc simTime numRuns stream).map
        (fun rs => rs.map (·.waiting_times)) ∧
    (run_multiple_simulations numTellers meanIA meanSvc simTime numRuns stream).map
        (fun rs => rs.map (·.service_times)) =
      (run_multiple_simulations numTellers meanIA meanSvc simTime numRuns stream).map
        (fun rs => rs.map (·.service_times)) :=
  ⟨rfl, rfl⟩

/-- C9: `calculate_overall_statistics` is a pure function of its input
list (the source only reads `all_stats`, building fresh intermediate
lists), so re-running it on the same list of run results yields identical
output; its value is moreover fully determined by the input through the
closed form `overallOf`, leaving no room for hidden mutable state. -/
theorem c9_idempotent_aggregation (l : List RunStats) :
    calculate_overall_statistics l = calculate_overall_statistics l ∧
    calculate_overall_statistics l =
      if l.isEmpty then .ok none else .ok (some (overallOf l)) := by
  refine ⟨rfl, ?_⟩
  by_cases h : l.isEmpty
  · have hnil : l = [] := List.isEmpty_iff.mp h
    subst hnil
    simpa using calc_nil
  · rw [if_neg h]
    exact calc_eq (Bool.not_eq_true _ ▸ eq_false_of_ne_true h)

/-- C10: On the empty list of run results `calculate_overall_statistics`
returns `None` (and no error), rather than a zeroed overall record. -/
theorem c10_empty_returns_none :
    calculate_overall_statistics [] = .ok none :=
  calc_nil

/-- C8: Observations are recorded at the moment service starts,
independent of completion: at every reachable instant the waiting-time
and service-time lists have equal length and the grants issued so far are
exactly the recorded observation pairs plus the service-start resumptions
still pending in the event queue.  Concretely (capacity 1, cutoff 10,
service draw 100): customer 1 begins service at time 2 and is still
mid-service at the cutoff (its teller slot is still held, `users = 1`),
yet it is counted in `customers_served` with both observations recorded;
customer 2 has requested but is still queued at the cutoff and leaves no
observation at all. -/
theorem c8_observation_recording (numTellers : ℕ) (meanIA meanSvc simTime : ℚ)
    (stream : List ℚ) (n : ℕ) :
    ((stepN n (initState numTellers meanIA meanSvc simTime stream)).waiting_times.length =
        (stepN n (initState numTellers meanIA meanSvc simTime stream)).service_times.length ∧
      (stepN n (initState numTellers meanIA meanSvc simTime stream)).grantLog.length =
        (stepN n (initState numTellers meanIA meanSvc simTime stream)).waiting_times.length +
          cntR (stepN n (initState numTellers meanIA meanSvc simTime stream)).queue) ∧
    run_single_simulation 1 1 100 10 1 [2, 3, 1, 100] =
        .ok (⟨1, 1, 0, 0, 100, [0], [100]⟩, []) ∧
    (runSim (simFuel [2, 3, 1, 100]) (initState 1 1 100 10 [2, 3, 1, 100])).toOption.map
        (fun f => (f.users, f.waitQ, f.requestLog, f.grantLog)) =
      some (1, [(2, 5)], [1, 2], [1]) := by
  refine ⟨⟨(invLen_stepN numTellers meanIA meanSvc simTime stream n).lw,
    (invLen_stepN numTellers meanIA meanSvc simTime stream n).lg⟩, ?_, ?_⟩
  · norm_num [run_single_simulation, simFuel, runSim, step, dispatch, doGenStart,
      doGenWake, doCustInit, doReqGranted, doSvcDone, draw, timeout, schedule,
      initState, List.orderedInsert, evLE, mkRunStats, listMax]
  · norm_num [simFuel, runSim, step, dispatch, doGenStart, doGenWake, doCustInit,
      doReqGranted, doSvcDone, draw, timeout, schedule, initState,
      List.orderedInsert, evLE, Except.toOption]

theorem run_single_ok {nT : ℕ} {mIA mSvc sT : ℚ} {rn : ℕ} {stream : List ℚ}
    {st : RunStats} {rest : List ℚ}
    (h : run_single_simulation nT mIA mSvc sT rn stream = .ok (st, rest)) :
    ∃ f, runSim (simFuel stream) (initState nT mIA mSvc sT stream) = .ok f ∧
      st = mkRunStats rn f.waiting_times f.service_times ∧ rest = f.stream := by
  unfold run_single_simulation at h
  split at h
  · exact absurd h (by simp)
  · split at h
    · exact absurd h (by simp)
    · cases hr : runSim (simFuel stream) (initState nT mIA mSvc sT stream) with
      | error e => rw [hr] at h; exact absurd h (by simp)
      | ok f =>
          rw [hr] at h
          simp only [Except.ok.injEq, Prod.mk.injEq] at h
          exact ⟨f, rfl, h.1.symm, h.2.symm⟩

theorem run_single_nonneg {nT : ℕ} {mIA mSvc sT : ℚ} {rn : ℕ} {stream : List ℚ}
    {st : RunStats} {rest : List ℚ}
    (h : run_single_simulation nT mIA mSvc sT rn stream = .ok (st, rest)) :
    (∀ w ∈ st.waiting_times, 0 ≤ w) ∧ (∀ x ∈ st.service_times, 0 ≤ x) := by
  obtain ⟨f, hr, hst, -⟩ := run_single_ok h
  have hT := invTime_runSim hr
  subst hst
  exact ⟨hT.waits_nn, hT.svcs_nn⟩

theorem runMultiAux_nonneg (nT : ℕ) (mIA mSvc sT : ℚ) :
    ∀ (k rn : ℕ) (stream : List ℚ) (rs : List RunStats),
      runMultiAux nT mIA mSvc sT k rn stream = .ok rs →
      ∀ r ∈ rs, (∀ w ∈ r.waiting_times, 0 ≤ w) ∧
        (∀ x ∈ r.service_times, 0 ≤ x) := by
  intro k
  induction k with
  | zero =>
      intro rn stream rs h r hr
      unfold runMultiAux at h
      simp only [Except.ok.injEq] at h
      subst h
      simp at hr
  | succ k ih =>
      intro rn stream rs h r hr
      unfold runMultiAux at h
      cases h1 : run_single_simulation nT mIA mSvc sT rn stream with
      | error e => rw [h1] at h; exact absurd h (by simp)
      | ok p =>
          obtain ⟨st, rest⟩ := p
          rw [h1] at h
          simp only [] at h
          cases h2 : runMultiAux nT mIA mSvc sT k (rn + 1) rest with
          | error e => rw [h2] at h; exact absurd h (by simp)
          | ok sts =>
              rw [h2] at h
              simp only [Except.ok.injEq] at h
              subst h
              rcases List.mem_cons.mp hr with hr | hr
              · subst hr
                exact run_single_nonneg h1
              · exact ih (rn + 1) rest sts h2 r hr

/-- C7: For every valid configuration and every run that the program
returns, `customers_served` is non-negative and every value recorded in
that run's waiting-time and service-time lists is non-negative.  (The
wait is the time from arrival to grant, which cannot be negative because
the clock only moves forward; a negative service draw would abort the run
inside `env.timeout` before the statistics are returned.) -/
theorem c7_nonneg_observations (numTellers : ℕ) (meanIA meanSvc simTime : ℚ)
    (numRuns : ℕ) (stream : List ℚ) (rs : List RunStats)
    (hT : 1 ≤ numTellers) (hIA : 0 < meanIA) (hSvc : 0 < meanSvc)
    (hST : 0 < simTime) (hstream : ∀ x ∈ stream, 0 ≤ x)
    (hrun : run_multiple_simulations numTellers meanIA meanSvc simTime numRuns
      stream = .ok rs) :
    ∀ r ∈ rs, 0 ≤ r.customers_served ∧
      (∀ w ∈ r.waiting_times, 0 ≤ w) ∧ (∀ x ∈ r.service_times, 0 ≤ x) := by
  intro r hr
  exact ⟨Nat.zero_le _,
    runMultiAux_nonneg numTellers meanIA meanSvc simTime numRuns 1 stream rs hrun r hr⟩

theorem c7_nonneg_observations_witness :
    ((1 : ℕ) ≤ 1 ∧ (0 : ℚ) < 1 ∧ (0 : ℚ) < 1 ∧ (0 : ℚ) < 10 ∧
      (∀ x ∈ [(20 : ℚ)], 0 ≤ x) ∧
      run_multiple_simulations 1 1 1 10 1 [20] = .ok [⟨1, 0, 0, 0, 0, [], []⟩]) ∧
    ∀ r ∈ [(⟨1, 0, 0, 0, 0, [], []⟩ : RunStats)], 0 ≤ r.customers_served ∧
      (∀ w ∈ r.waiting_times, 0 ≤ w) ∧ (∀ x ∈ r.service_times, 0 ≤ x) := by
  have hrun : run_multiple_simulations 1 1 1 10 1 [20] =
      .ok [⟨1, 0, 0, 0, 0, [], []⟩] := by
    norm_num [run_multiple_simulations, runMultiAux, run_single_simulation, simFuel,
      runSim, step, dispatch, doGenStart, doGenWake, doCustInit, doReqGranted,
      doSvcDone, draw, timeout, schedule, initState, List.orderedInsert, evLE,
      mkRunStats, listMax]
  refine ⟨⟨le_refl _, by norm_num, by norm_num, by norm_num, by norm_num, hrun⟩, ?_⟩
  exact c7_nonneg_observations 1 1 1 10 1 [20] _ (le_refl _) (by norm_num)
    (by norm_num) (by norm_num) (by norm_num) hrun

/-- C1 counterexample: the claim fails on the code.  With the
non-positive parameter `num_runs = 0` (all other parameters valid) the
program completes successfully with an empty result list and raises no
error at all.  With `mean_interarrival = 0` the failure is a
`ZeroDivisionError` (`1.0 / 0`), and it is raised by the already-running
scheduler loop while dispatching the arrival generator, not by any
validation before the run. -/
theorem c1_counterexample :
    run_multiple_simulations 1 1 1 10 0 [] = .ok [] ∧
    run_single_simulation 1 0 1 10 1 [] = .error .zeroDivision ∧
    step (initState 1 0 1 10 []) = .err .zeroDivision := by
  refine ⟨rfl, ?_, ?_⟩
  · norm_num [run_single_simulation, simFuel, runSim, step, dispatch, doGenStart,
      draw, initState]
  · norm_num [step, dispatch, doGenStart, draw, initState]

/-- C1 amended: the core performs no configuration validation of its own.
A non-positive `num_runs` produces a successful empty result with no
error; a capacity of 0 fails with the resource constructor's error before
the run; a non-positive `sim_time` fails with `env.run`'s error when the
run is started; `mean_interarrival = 0` raises a division error from
inside the running scheduler loop.  No invalid-configuration error
exists, and the failures that do occur are neither uniform nor all prior
to execution. -/
theorem c1_no_validation (numTellers : ℕ) (meanIA meanSvc simTime : ℚ)
    (runNumber : ℕ) (stream : List ℚ) :
    run_multiple_simulations numTellers meanIA meanSvc simTime 0 stream = .ok [] ∧
    (numTellers = 0 →
      run_single_simulation numTellers meanIA meanSvc simTime runNumber stream =
        .error .capacityError) ∧
    (numTellers ≠ 0 → simTime ≤ 0 →
      run_single_simulation numTellers meanIA meanSvc simTime runNumber stream =
        .error .untilError) ∧
    (numTellers ≠ 0 → 0 < simTime →
      run_single_simulation numTellers 0 meanSvc simTime runNumber stream =
        .error .zeroDivision) := by
  refine ⟨rfl, ?_, ?_, ?_⟩
  · intro h
    unfold run_single_simulation
    rw [if_pos h]
  · intro h1 h2
    unfold run_single_simulation
    rw [if_neg h1, if_pos h2]
  · intro h1 h2
    unfold run_single_simulation
    rw [if_neg h1, if_neg (not_le.mpr h2)]
    have hfuel : simFuel stream = 4 * stream.length + 3 + 1 := by
      unfold simFuel
      omega
    rw [hfuel]
    have hstep : step (initState numTellers 0 meanSvc simTime stream) =
        .err .zeroDivision := by
      unfold step initState
      simp only []
      rw [if_neg (not_le.mpr h2)]
      simp [dispatch, doGenStart, draw]
    unfold runSim
    rw [hstep]

theorem c1_no_validation_witness :
    run_single_simulation 0 1 1 10 1 [] = .error .capacityError ∧
    run_single_simulation 2 1 1 0 1 [] = .error .untilError ∧
    run_single_simulation 2 0 1 10 1 [] = .error .zeroDivision :=
  ⟨(c1_no_validation 0 1 1 10 1 []).2.1 rfl,
   (c1_no_validation 2 1 1 0 1 []).2.2.1 (by norm_num) (by norm_num),
   (c1_no_validation 2 1 1 10 1 []).2.2.2 (by norm_num) (by norm_num)⟩

/-- C3 counterexample: the claim quantifies over every list with fewer
than two qualifying runs, which includes the empty list; there
`calculate_overall_statistics` returns `None`, so no record with zeroed
standard deviation and confidence bounds is returned. -/
theorem c3_counterexample :
    calculate_overall_statistics [] = .ok none ∧
    ¬ ∃ O : OverallStats, calculate_overall_statistics [] = .ok (some O) := by
  refine ⟨calc_nil, ?_⟩
  rintro ⟨O, hO⟩
  rw [calc_nil] at hO
  simp at hO

/-- C3 amended: for every NON-EMPTY list of run results with fewer than
two qualifying runs (runs with `customers_served > 0`),
`calculate_overall_statistics` returns a record with
`std_avg_waiting_time = 0`, `waiting_time_95ci_low = 0` and
`waiting_time_95ci_high = 0`; and on every list whatsoever (the empty one
included) it returns successfully, never raising a division or variance
error. -/
theorem c3_underflow_zeroes (l : List RunStats) (hl : l ≠ [])
    (hq : (qualifying l).length < 2) :
    (∃ O, calculate_overall_statistics l = .ok (some O) ∧
      O.std_avg_waiting_time = 0 ∧ O.waiting_time_95ci_low = 0 ∧
      O.waiting_time_95ci_high = 0) ∧
    (∀ l' : List RunStats, ∃ v, calculate_overall_statistics l' = .ok v) := by
  have he : l.isEmpty = false := by
    cases l with
    | nil => exact absurd rfl hl
    | cons a t => rfl
  have hlen : ((qualifying l).map (·.avg_waiting_time)).length ≤ 1 := by
    rw [List.length_map]
    omega
  constructor
  · refine ⟨overallOf l, calc_eq he, ?_, ?_, ?_⟩
    · show stdVal ((qualifying l).map (·.avg_waiting_time)) = 0
      unfold stdVal
      rw [if_pos hlen]
    · show ciVal (-1) ((qualifying l).map (·.avg_waiting_time)) = 0
      unfold ciVal
      rw [if_pos hlen]
    · show ciVal 1 ((qualifying l).map (·.avg_waiting_time)) = 0
      unfold ciVal
      rw [if_pos hlen]
  · intro l'
    by_cases h : l' = []
    · subst h
      exact ⟨none, calc_nil⟩
    · have he' : l'.isEmpty = false := by
        cases l' with
        | nil => exact absurd rfl h
        | cons a t => rfl
      exact ⟨some (overallOf l'), calc_eq he'⟩

theorem c3_underflow_zeroes_witness :
    (([(⟨1, 1, 5, 5, 5, [5], [5]⟩ : RunStats)] : List RunStats) ≠ [] ∧
      (qualifying [(⟨1, 1, 5, 5, 5, [5], [5]⟩ : RunStats)]).length < 2) ∧
    ((∃ O, calculate_overall_statistics
          [(⟨1, 1, 5, 5, 5, [5], [5]⟩ : RunStats)] = .ok (some O) ∧
        O.std_avg_waiting_time = 0 ∧ O.waiting_time_95ci_low = 0 ∧
        O.waiting_time_95ci_high = 0) ∧
      (∀ l' : List RunStats, ∃ v, calculate_overall_statistics l' = .ok v)) := by
  have h1 : ([(⟨1, 1, 5, 5, 5, [5], [5]⟩ : RunStats)] : List RunStats) ≠ [] := by
    simp
  have h2 : (qualifying [(⟨1, 1, 5, 5, 5, [5], [5]⟩ : RunStats)]).length < 2 := by
    simp [qualifying]
  exact ⟨⟨h1, h2⟩, c3_underflow_zeroes _ h1 h2⟩

/-- C2: A run in which no customer ever started service (no teller grant
was issued) returns the valid degenerate result with
`customers_served = 0` and all three reported averages equal to 0; and
the aggregator excludes such zero-customer runs from the four across-run
statistics (`mean_avg_waiting_time`, `std_avg_waiting_time`,
`mean_max_waiting_time`, `mean_avg_service_time`) while still counting
them in `total_runs` and in the denominator of
`avg_customers_per_run`. -/
theorem c2_zero_customer_runs (numTellers : ℕ) (meanIA meanSvc simTime : ℚ)
    (runNumber : ℕ) (stream : List ℚ) (f : SimState) (l : List RunStats)
    (z : RunStats)
    (hT : numTellers ≠ 0) (hST : 0 < simTime)
    (hrun : runSim (simFuel stream)
      (initState numTellers meanIA meanSvc simTime stream) = .ok f)
    (hg : f.grantLog = [])
    (hz : z.customers_served = 0) (hl : l ≠ []) :
    run_single_simulation numTellers meanIA meanSvc simTime runNumber stream =
        .ok (⟨runNumber, 0, 0, 0, 0, [], []⟩, f.stream) ∧
    ∃ O1 O2, calculate_overall_statistics l = .ok (some O1) ∧
      calculate_overall_statistics (l ++ [z]) = .ok (some O2) ∧
      O2.mean_avg_waiting_time = O1.mean_avg_waiting_time ∧
      O2.std_avg_waiting_time = O1.std_avg_waiting_time ∧
      O2.mean_max_waiting_time = O1.mean_max_waiting_time ∧
      O2.mean_avg_service_time = O1.mean_avg_service_time ∧
      O2.total_runs = O1.total_runs + 1 ∧
      O2.total_customers_served = O1.total_customers_served ∧
      O2.avg_customers_per_run =
        ((l.map (·.customers_served)).map fun (n : ℕ) => (n : ℚ)).sum /
          ((l.length : ℚ) + 1) := by
  constructor
  · have hL := invLen_runSim hrun
    have hw0 : f.waiting_times = [] := by
      have h0 := hL.lg
      rw [hg] at h0
      simp only [List.length_nil] at h0
      exact List.length_eq_zero.mp (by omega)
    have hs0 : f.service_times = [] := by
      have h1 := hL.lw
      rw [hw0] at h1
      simp only [List.length_nil] at h1
      exact List.length_eq_zero.mp h1.symm
    unfold run_single_simulation
    rw [if_neg hT, if_neg (not_le.mpr hST), hrun]
    simp only []
    rw [hw0, hs0]
    rfl
  · have he : l.isEmpty = false := by
      cases l with
      | nil => exact absurd rfl hl
      | cons a t => rfl
    have he2 : (l ++ [z]).isEmpty = false := by
      cases l with
      | nil => exact absurd rfl hl
      | cons a t => rfl
    have hfil : qualifying (l ++ [z]) = qualifying l := by
      unfold qualifying
      rw [List.filter_append]
      have hzf : List.filter (fun s => decide (0 < s.customers_served)) [z] = [] := by
        simp [hz]
      rw [hzf, List.append_nil]
    have hmE : (((l ++ [z]).map (·.customers_served)).map
        fun (n : ℕ) => (n : ℚ)).isEmpty = false := by
      cases l with
      | nil => exact absurd rfl hl
      | cons a t => rfl
    refine ⟨overallOf l, overallOf (l ++ [z]), calc_eq he, calc_eq he2,
      ?_, ?_, ?_, ?_, ?_, ?_, ?_⟩
    · show meanVal ((qualifying (l ++ [z])).map (·.avg_waiting_time)) =
        meanVal ((qualifying l).map (·.avg_waiting_time))
      rw [hfil]
    · show stdVal ((qualifying (l ++ [z])).map (·.avg_waiting_time)) =
        stdVal ((qualifying l).map (·.avg_waiting_time))
      rw [hfil]
    · show meanVal ((qualifying (l ++ [z])).map (·.max_waiting_time)) =
        meanVal ((qualifying l).map (·.max_waiting_time))
      rw [hfil]
    · show meanVal ((qualifying (l ++ [z])).map (·.avg_service_time)) =
        meanVal ((qualifying l).map (·.avg_service_time))
      rw [hfil]
    · show (l ++ [z]).length = l.length + 1
      simp
    · show ((l ++ [z]).map (·.customers_served)).sum =
        (l.map (·.customers_served)).sum
      simp [hz]
    · show meanVal (((l ++ [z]).map (·.customers_served)).map
        fun (n : ℕ) => (n : ℚ)) =
        ((l.map (·.customers_served)).map fun (n : ℕ) => (n : ℚ)).sum /
          ((l.length : ℚ) + 1)
      unfold meanVal
      rw [hmE]
      rw [if_neg Bool.false_ne_true]
      simp [List.map_append, List.sum_append, List.length_append,
        List.length_map, hz]

theorem c2_zero_customer_runs_witness :
    ((1 : ℕ) ≠ 0 ∧ (0 : ℚ) < 10 ∧
      runSim (simFuel [20]) (initState 1 1 1 10 [20]) =
        .ok ⟨0, 10, 1, 1, 1, 2, [⟨20, 1, 1, .genWake⟩], 0, [], 0, [], [], [], [], []⟩ ∧
      (⟨0, 10, 1, 1, 1, 2, [⟨20, 1, 1, .genWake⟩], 0, [], 0, [], [], [], [], []⟩ :
        SimState).grantLog = [] ∧
      (⟨2, 0, 0, 0, 0, [], []⟩ : RunStats).customers_served = 0 ∧
      ([(⟨1, 1, 5, 5, 5, [5], [5]⟩ : RunStats)] : List RunStats) ≠ []) ∧
    (run_single_simulation 1 1 1 10 1 [20] =
        .ok (⟨1, 0, 0, 0, 0, [], []⟩,
          (⟨0, 10, 1, 1, 1, 2, [⟨20, 1, 1, .genWake⟩], 0, [], 0, [], [], [], [], []⟩ :
            SimState).stream) ∧
      ∃ O1 O2,
        calculate_overall_statistics [(⟨1, 1, 5, 5, 5, [5], [5]⟩ : RunStats)] =
          .ok (some O1) ∧
        calculate_overall_statistics
            ([(⟨1, 1, 5, 5, 5, [5], [5]⟩ : RunStats)] ++
              [(⟨2, 0, 0, 0, 0, [], []⟩ : RunStats)]) = .ok (some O2) ∧
        O2.mean_avg_waiting_time = O1.mean_avg_waiting_time ∧
        O2.std_avg_waiting_time = O1.std_avg_waiting_time ∧
        O2.mean_max_waiting_time = O1.mean_max_waiting_time ∧
        O2.mean_avg_service_time = O1.mean_avg_service_time ∧
        O2.total_runs = O1.total_runs + 1 ∧
        O2.total_customers_served = O1.total_customers_served ∧
        O2.avg_customers_per_run =
          (([(⟨1, 1, 5, 5, 5, [5], [5]⟩ : RunStats)].map
              (·.customers_served)).map fun (n : ℕ) => (n : ℚ)).sum /
            ((([(⟨1, 1, 5, 5, 5, [5], [5]⟩ : RunStats)] : List RunStats).length : ℚ) + 1)) := by
  have hrun : runSim (simFuel [20]) (initState 1 1 1 10 [20]) =
      .ok ⟨0, 10, 1, 1, 1, 2, [⟨20, 1, 1, .genWake⟩], 0, [], 0, [], [], [], [], []⟩ := by
    norm_num [simFuel, runSim, step, dispatch, doGenStart, draw, timeout, schedule,
      initState, List.orderedInsert, evLE]
  refine ⟨⟨by decide, by norm_num, hrun, rfl, rfl, by simp⟩, ?_⟩
  exact c2_zero_customer_runs 1 1 1 10 1 [20]
    ⟨0, 10, 1, 1, 1, 2, [⟨20, 1, 1, .genWake⟩], 0, [], 0, [], [], [], [], []⟩
    [(⟨1, 1, 5, 5, 5, [5], [5]⟩ : RunStats)] (⟨2, 0, 0, 0, 0, [], []⟩ : RunStats)
    (by decide) (by norm_num) hrun rfl rfl (by simp)
